import Mathlib

/-
Shallow embedding of the task scheduler / configuration core of
AzurLaneAutoScript (src/module/config/config.py).

Conventions of the embedding:
* Python `datetime` values are modelled as `Int` microseconds since the Unix
  epoch; `timedelta` values are `Int` microseconds.  `replace(microsecond=0)`
  is `truncSec` (floor to a whole second).
* Python dicts are association lists in insertion order: assignment to an
  existing key keeps its position (`alset`), iteration is list order, which
  matches CPython dict semantics.
* Fallible Python code (raised exceptions) returns `Except CfgError`.
* Helper functions from `module/config/utils.py`, `module/base/filter.py`
  and `module/config/config_manual.py` are not part of the provided sources;
  they are modelled from the specification and marked as such.
-/

namespace Alas

/-- A configuration value stored in the document: Python bool / int / str /
datetime leaves, the only shapes the modelled code paths touch. -/
inductive Value where
  | vBool : Bool → Value
  | vInt : Int → Value
  | vStr : String → Value
  | vTime : Int → Value
deriving DecidableEq, Repr

/-- Python truthiness (`if not value`) for modelled leaf values. -/
def Value.truthy : Value → Bool
  | .vBool b => b
  | .vInt n => !(n == 0)
  | .vStr s => !(s == "")
  | .vTime _ => true

/-- Python `int(value)` for the value shapes the modelled code feeds it
(ints and bools; on other leaves CPython would raise, such documents are
outside the modelled domain and mapped to 0). -/
def Value.asInt : Value → Int
  | .vInt n => n
  | .vBool b => if b then 1 else 0
  | _ => 0

/-- True iff the value is a `datetime` (`isinstance(value, datetime)`). -/
def Value.isTime : Value → Bool
  | .vTime _ => true
  | _ => false

/-- Association-list lookup: the model of Python `dict[key]` access. -/
def alget {κ α : Type} [DecidableEq κ] : List (κ × α) → κ → Option α
  | [], _ => none
  | (k0, v) :: rest, k => if k0 = k then some v else alget rest k

/-- Association-list assignment: the model of Python `dict[key] = value`
(an existing key keeps its position, a new key is appended). -/
def alset {κ α : Type} [DecidableEq κ] : List (κ × α) → κ → α → List (κ × α)
  | [], k, v => [(k, v)]
  | (k0, v0) :: rest, k, v =>
      if k0 = k then (k, v) :: rest else (k0, v0) :: alset rest k v

/-- One task section's group: field name → value. -/
abbrev GroupData := List (String × Value)

/-- One task section: group name → group data. -/
abbrev FuncData := List (String × GroupData)

/-- The whole configuration document: task name → task section.
Models `AzurLaneConfig.data` and the persisted json file. -/
abbrev ConfigData := List (String × FuncData)

/-- A dotted document path `func.group.arg`, kept as a triple. -/
abbrev Path := String × String × String

/-- Modelled from the spec: `deep_get(data, keys=[group, arg])` of
module/config/utils.py (not in src/) — nested dict lookup, two levels. -/
def deep_get2 (fd : FuncData) (g a : String) : Option Value :=
  match alget fd g with
  | none => none
  | some gd => alget gd a

/-- Modelled from the spec: `deep_get(data, keys='f.g.a')` of
module/config/utils.py (not in src/) — nested dict lookup, three levels. -/
def deep_get3 (d : ConfigData) (f g a : String) : Option Value :=
  match alget d f with
  | none => none
  | some fd => deep_get2 fd g a

/-- `deep_get3` at a `Path` triple. -/
def deep_get3P (d : ConfigData) (p : Path) : Option Value :=
  deep_get3 d p.1 p.2.1 p.2.2

/-- Modelled from the spec: `deep_set(data, keys='f.g.a', value=v)` of
module/config/utils.py (not in src/) — nested dict write, creating missing
intermediate levels. -/
def deep_set3 (d : ConfigData) (p : Path) (v : Value) : ConfigData :=
  let fd := (alget d p.1).getD []
  let gd := (alget fd p.2.1).getD []
  alset d p.1 (alset fd p.2.1 (alset gd p.2.2 v))

/-- Apply every staged entry of a modified-set onto a document, in insertion
order: the loop `for path, value in self.modified.items(): deep_set(...)`
shared by `load` and `save`. -/
def applyModified (d : ConfigData) (m : List (Path × Value)) : ConfigData :=
  m.foldl (fun d pv => deep_set3 d pv.1 pv.2) d

/-- One microsecond short of a second: `truncSec` floors a timestamp to a
whole second, the model of `datetime.replace(microsecond=0)`. -/
def truncSec (t : Int) : Int :=
  1000000 * (t.fdiv 1000000)

/-- `datetime(2020, 1, 1, 0, 0)` in microseconds since the Unix epoch — the
default `NextRun` used by `Function.__init__`. -/
def defaultNextRun : Int := 1577836800000000

/-- The scheduler's view of one task (class `Function` of config.py):
enable flag, command name, next scheduled run. -/
structure Function where
  enable : Bool
  command : String
  next_run : Int
deriving DecidableEq, Repr

/-- `Function.__init__(data)`: extract `Scheduler.Enable` (default False),
`Scheduler.Command` (default 'Unknown'), `Scheduler.NextRun` (default
datetime(2020, 1, 1)).  A present non-string command or non-datetime
NextRun is mapped to the default; the latter cannot occur on documents that
passed `ConfigTypeChecker.check`. -/
def Function.ofData (fd : FuncData) : Function :=
  { enable :=
      match deep_get2 fd "Scheduler" "Enable" with
      | some v => v.truthy
      | none => false
    command :=
      match deep_get2 fd "Scheduler" "Command" with
      | some (.vStr s) => s
      | _ => "Unknown"
    next_run :=
      match deep_get2 fd "Scheduler" "NextRun" with
      | some (.vTime t) => t
      | _ => defaultNextRun }

/-- `Function.__eq__`: equality by (command, next_run) only. -/
def funcEq (a b : Function) : Bool :=
  (a.command == b.command) && (a.next_run == b.next_run)

/-- Ascending order on `next_run`, the sort key of the waiting queue
(`sorted(waiting, key=operator.attrgetter('next_run'))`). -/
def nrLE (a b : Function) : Prop := a.next_run ≤ b.next_run

instance : DecidableRel nrLE := fun a b => Int.decLe a.next_run b.next_run

instance : IsTotal Function nrLE := ⟨fun a b => Int.le_total a.next_run b.next_run⟩

instance : IsTrans Function nrLE := ⟨fun _ _ _ h h2 => le_trans h h2⟩

/-- Stable ascending sort of the waiting queue by `next_run`, the model of
Python's stable `sorted` (insertion sort inserts before the first
greater-or-equal element, like CPython's stable sort on this key). -/
def sortNR (l : List Function) : List Function :=
  List.insertionSort nrLE l

/-- Index of the first priority pattern equal to a command name; commands
matching no pattern get the one-past-the-end (lowest) priority. -/
def prioIdx (prio : List String) (cmd : String) : Nat :=
  match prio with
  | [] => 0
  | p :: ps => if p = cmd then 0 else prioIdx ps cmd + 1

/-- Modelled from the spec: the priority pass applied to the pending queue
(`Filter` of module/base/filter.py and `SCHEDULER_PRIORITY` of
config_manual.py, neither in src/).  Per spec section 4.2: a stable reorder
of the pending tasks by the index of the first matching priority pattern
(unmatched commands keep the lowest priority), after which each task must
individually still satisfy `enabled`. -/
def priorityFilter (prio : List String) (l : List Function) : List Function :=
  ((List.range (prio.length + 1)).flatMap
      (fun i => l.filter (fun f => prioIdx prio f.command == i))).filter
    (fun f => f.enable)

/-- The partition loop of `get_next_task`: for each task in document order,
skip it if not enabled, else append to pending when `next_run < now`,
otherwise to waiting. -/
def partitionTasks : List Function → Int → List Function × List Function
  | [], _ => ([], [])
  | f :: fs, now =>
      let pw := partitionTasks fs now
      if !f.enable then pw
      else if f.next_run < now then (f :: pw.1, pw.2)
      else (pw.1, f :: pw.2)

/-- Errors raised by the modelled code: `RequestHumanTakeover` (the spec's
`HumanTakeoverRequired`) and `ScriptError` (the spec's `ConfigError`).
Raising is modelled as returning `Except.error`, which propagates
synchronously to the caller with no internal retry. -/
inductive CfgError where
  | requestHumanTakeover : CfgError
  | scriptError : String → CfgError
deriving DecidableEq, Repr

/-- Decidable equality on `Except`, so witnesses can be checked by
`decide`. -/
def exceptDecEqFn {ε α : Type} [DecidableEq ε] [DecidableEq α] :
    (a b : Except ε α) → Decidable (a = b)
  | .error a, .error b =>
      match decEq a b with
      | isTrue h => isTrue (by rw [h])
      | isFalse h => isFalse (fun hc => h (Except.error.inj hc))
  | .error _, .ok _ => isFalse (fun hc => Except.noConfusion hc)
  | .ok _, .error _ => isFalse (fun hc => Except.noConfusion hc)
  | .ok a, .ok b =>
      match decEq a b with
      | isTrue h => isTrue (by rw [h])
      | isFalse h => isFalse (fun hc => h (Except.ok.inj hc))

instance {ε α : Type} [DecidableEq ε] [DecidableEq α] :
    DecidableEq (Except ε α) := exceptDecEqFn

/-- The in-memory state of one `AzurLaneConfig` instance.  `file` is the
content of the persisted json file (the document-store collaborator);
`saves` is a ghost counter of `save()` invocations used to state the
batching claims; `is_hoarding_task` is the class-level hoarding flag. -/
structure Config where
  file : ConfigData
  data : ConfigData
  modified : List (Path × Value)
  bound : List (String × Path)
  auto_update : Bool
  overridden : List (String × Value)
  attrs : List (String × Value)
  task : Function
  pending_task : List Function
  waiting_task : List Function
  is_hoarding_task : Bool
  saves : Nat
deriving DecidableEq

/-- The `hoarding` property: `Alas.Optimization.TaskHoardingDuration`
minutes (default 0, clamped to ≥ 0) as a microsecond duration. -/
def hoardingOf (d : ConfigData) : Int :=
  match deep_get3 d "Alas" "Optimization" "TaskHoardingDuration" with
  | some v => 60000000 * max v.asInt 0
  | none => 0

/-- The adjusted cutoff of `get_next_task`: when the hoarding flag is set,
`now` is moved back by the hoarding duration before filtering. -/
def adjustedNow (c : Config) (now : Int) : Int :=
  if c.is_hoarding_task then now - hoardingOf c.data else now

/-- The pending queue computed by `get_next_task()`: the pending side of
the partition loop, passed through the priority pass when non-empty. -/
def pendingOf (c : Config) (prio : List String) (now : Int) : List Function :=
  if (partitionTasks (c.data.map fun e => Function.ofData e.2)
      (adjustedNow c now)).1.isEmpty then
    (partitionTasks (c.data.map fun e => Function.ofData e.2)
      (adjustedNow c now)).1
  else
    priorityFilter prio
      (partitionTasks (c.data.map fun e => Function.ofData e.2)
        (adjustedNow c now)).1

/-- The waiting queue computed by `get_next_task()`: the waiting side of
the partition loop, sorted by `next_run` when non-empty. -/
def waitingOf (c : Config) (now : Int) : List Function :=
  if (partitionTasks (c.data.map fun e => Function.ofData e.2)
      (adjustedNow c now)).2.isEmpty then
    (partitionTasks (c.data.map fun e => Function.ofData e.2)
      (adjustedNow c now)).2
  else
    sortNR
      (partitionTasks (c.data.map fun e => Function.ofData e.2)
        (adjustedNow c now)).2

/-- `get_next_task()`: recompute `pending_task` and `waiting_task` from the
document at the (possibly hoarding-adjusted) current time, apply the
priority pass to a non-empty pending queue and sort a non-empty waiting
queue by `next_run`. -/
def get_next_task (c : Config) (prio : List String) (now : Int) : Config :=
  { c with pending_task := pendingOf c prio now,
           waiting_task := waitingOf c now }

/-- `get_next()`: recompute the queues; with a non-empty pending queue clear
the hoarding flag and return its first task; otherwise set the hoarding
flag and, with a non-empty waiting queue, return a copy of its first task
whose `next_run` is advanced by the hoarding duration and floored to a
whole second; with both queues empty raise `RequestHumanTakeover`. -/
def get_next (c : Config) (prio : List String) (now : Int) :
    Except CfgError (Function × Config) :=
  let c1 := get_next_task c prio now
  match c1.pending_task with
  | t :: _ => .ok (t, { c1 with is_hoarding_task := false })
  | [] =>
      let c2 := { c1 with is_hoarding_task := true }
      match c2.waiting_task with
      | t :: _ =>
          .ok ({ t with next_run := truncSec (t.next_run + hoardingOf c2.data) }, c2)
      | [] => .error .requestHumanTakeover

/-- The fixed set of timestamp-typed fields `ConfigTypeChecker.checkers`
(each expected type is `datetime`). -/
def ConfigTypeChecker.checkers : List (String × String) :=
  [("Scheduler", "NextRun"), ("Emotion", "Fleet1Record"),
   ("Emotion", "Fleet2Record"), ("Exercise", "OpponentRefreshRecord")]

/-- One checker step: a checked field is in order when it is absent or holds
a `datetime`. -/
def fieldTypeOK (fd : FuncData) (pr : String × String) : Bool :=
  match deep_get2 fd pr.1 pr.2 with
  | none => true
  | some v => v.isTime

/-- `ConfigTypeChecker.check(data)`: true iff no task section holds one of
the checked fields with a present non-datetime value (the Python version
raises `RequestHumanTakeover` on the first violation, modelled as the
false result). -/
def ConfigTypeChecker.check (d : ConfigData) : Bool :=
  d.all fun e => ConfigTypeChecker.checkers.all fun pr => fieldTypeOK e.2 pr

/-- `load()`: re-read the document from the file, run the type check
(raising `RequestHumanTakeover` on a violation), then re-apply every staged
entry of the modified-set on top. -/
def load (c : Config) : Except CfgError Config :=
  if ConfigTypeChecker.check c.file then
    .ok { c with data := applyModified c.file c.modified }
  else
    .error .requestHumanTakeover

/-- `save()`: a no-op when the modified-set is empty; otherwise flush every
staged entry into the document, clear the modified-set and write the
document to the file.  The ghost counter `saves` counts invocations. -/
def save (c : Config) : Config :=
  if c.modified.isEmpty then { c with saves := c.saves + 1 }
  else
    { c with
      saves := c.saves + 1
      data := applyModified c.data c.modified
      modified := []
      file := applyModified c.data c.modified }

/-- The accumulator of the binding loop of `bind`: the visited set of
`group.arg` paths, the name → path map `bound` under construction, and the
instance attributes written through `super().__setattr__`. -/
structure BindState where
  visited : List (String × String)
  bound : List (String × Path)
  attrs : List (String × Value)

/-- Modelled from the spec: `path_to_arg('Group.Arg')` of
module/config/utils.py (not in src/) — the flat parameter name built from
the (group, field) pair. -/
def path_to_arg (group arg : String) : String :=
  group ++ "_" ++ arg

/-- The innermost loop of `bind`: walk one group's (arg, value) pairs; a
`group.arg` path already visited by an earlier-iterated section is skipped,
a fresh one sets the instance attribute, records `bound[arg] = func.path`
and marks the path visited. -/
def bindArgs (funcName group : String) : GroupData → BindState → BindState
  | [], st => st
  | (arg, v) :: rest, st =>
      if (group, arg) ∈ st.visited then bindArgs funcName group rest st
      else
        bindArgs funcName group rest
          { visited := (group, arg) :: st.visited
            bound := alset st.bound (path_to_arg group arg) (funcName, group, arg)
            attrs := alset st.attrs (path_to_arg group arg) v }

/-- The middle loop of `bind`: walk one section's groups. -/
def bindGroups (funcName : String) : FuncData → BindState → BindState
  | [], st => st
  | (group, gd) :: rest, st =>
      bindGroups funcName rest (bindArgs funcName group gd st)

/-- `bind(func)`: clear `bound`, then walk the sections of `func_set` and
bind every not-yet-visited `group.arg` pair, then re-apply every entry of
`overridden`.  The source iterates the Python set
`{func, 'General', 'Alas'}` (plus `'OpsiGeneral'` for opsi tasks) whose
string iteration order is hash-randomized and unspecified, so the
enumeration order is an explicit parameter `order` ranging over the
enumerations of that set. -/
def bind (c : Config) (order : List String) : Config :=
  let st :=
    order.foldl (fun st f => bindGroups f ((alget c.data f).getD []) st)
      { visited := [], bound := [], attrs := c.attrs }
  let attrs := c.overridden.foldl (fun a kv => alset a kv.1 kv.2) st.attrs
  { c with bound := st.bound, attrs := attrs }

/-- One possible enumeration order of the set `{func, 'General', 'Alas'}`
(plus `'OpsiGeneral'` for opsi task names): the order used where the
settled claims do not depend on the enumeration order.  A duplicate name
(a task named 'General' or 'Alas') is harmless: its second iteration skips
every already-visited path. -/
def defaultBindOrder (f : String) : List String :=
  [f, "General", "Alas"] ++
    (if (f.toLower.splitOn "opsi").length > 1 then ["OpsiGeneral"] else [])

/-- `update()`: `load()` then `bind(self.task)` then `save()`. -/
def update (c : Config) : Except CfgError Config :=
  match load c with
  | .error e => .error e
  | .ok c2 => .ok (save (bind c2 (defaultBindOrder c2.task.command)))

/-- `AzurLaneConfig.__setattr__`: writing a bound parameter name stages the
value in the modified-set under its resolved path and, when auto-update is
on, immediately runs `update()`; writing an unbound name is a plain
instance-attribute set with no persistence effect. -/
def setattrC (c : Config) (key : String) (v : Value) : Except CfgError Config :=
  match alget c.bound key with
  | some path =>
      if c.auto_update then update { c with modified := alset c.modified path v }
      else .ok { c with modified := alset c.modified path v }
  | none => .ok { c with attrs := alset c.attrs key v }

/-- Python `int(value)` on an instance attribute read (`self.X`), with the
missing-attribute fallback to the GeneratedConfig class default (not in
src/) modelled as 0; the settled claims do not depend on the fallback. -/
def getAttrInt (c : Config) (k : String) : Int :=
  match alget c.attrs k with
  | some v => v.asInt
  | none => 0

/-- `ensure_delta(delay)`: `timedelta(seconds=int(ensure_time(delay) * 60))`
in microseconds.  Modelled from the spec for integer minute counts, on
which `ensure_time` is the identity. -/
def ensure_delta (m : Int) : Int :=
  60000000 * m

/-- The minimum of a non-empty list of timestamps (`min(run)`); 0 on the
empty list, which the modelled code never passes. -/
def minList : List Int → Int
  | [] => 0
  | x :: xs => xs.foldl min x

/-- Modelled from the spec: `get_server_next_update(times)` of
module/config/utils.py (not in src/) — the nearest upcoming occurrence of
any of the given times-of-day (microseconds into a day), rolling an
occurrence at or before now forward by one day. -/
def get_server_next_update (times : List Int) (now : Int) : Int :=
  let day : Int := 86400000000
  minList (times.map fun tod =>
    let t0 := day * now.fdiv day + tod
    if t0 ≤ now then t0 + day else t0)

/-- Modelled from the spec: `nearest_future(targets)` of
module/config/utils.py (not in src/) — the nearest future occurrence among
the given timestamps (the earliest overall when none is in the future). -/
def nearest_future (times : List Int) (now : Int) : Int :=
  let fut := times.filter fun t => now < t
  if fut.isEmpty then minList times else minList fut

/-- The candidate list `run` of `task_delay`, in source order: one
timestamp per non-null argument.  `server_update=True` resolves to the
configured server-update times before the call, so the argument carries
the resolved time-of-day list. -/
def delayRuns (c : Config) (now : Int) (success : Option Bool)
    (server_update : Option (List Int)) (target : Option (List Int))
    (minute : Option Int) : List Int :=
  (match success with
   | some s =>
       [now + ensure_delta (getAttrInt c
          (if s then "Scheduler_SuccessInterval" else "Scheduler_FailureInterval"))]
   | none => []) ++
  (match server_update with
   | some l => [get_server_next_update l now]
   | none => []) ++
  (match target with
   | some l => [nearest_future l now]
   | none => []) ++
  (match minute with
   | some m => [now + ensure_delta m]
   | none => [])

/-- The message of the `ScriptError` raised by `task_delay`. -/
def delayErrMsg : String :=
  "Missing argument in delay_next_run, should set at least one"

/-- `task_delay(success, server_update, target, minute)`: collect one
candidate timestamp per non-null argument; with no candidate raise
`ScriptError`, otherwise assign the minimum candidate floored to a whole
second to the bound parameter `Scheduler_NextRun`. -/
def task_delay (c : Config) (now : Int) (success : Option Bool)
    (server_update : Option (List Int)) (target : Option (List Int))
    (minute : Option Int) : Except CfgError Config :=
  if (delayRuns c now success server_update target minute).isEmpty then
    .error (.scriptError delayErrMsg)
  else
    setattrC c "Scheduler_NextRun" (.vTime (truncSec
      (minList (delayRuns c now success server_update target minute))))

/-- The tail of `task_switched()` after the reload: recompute `get_next()`
on the reloaded state `c2` and compare the fresh task against the task
bound before the reload (`prev = self.task`). -/
def task_switched_fresh (c c2 : Config) (prio : List String) (now : Int) :
    Except CfgError (Bool × Config) :=
  match get_next c2 prio now with
  | .error e => .error e
  | .ok tn => .ok (!funcEq c.task tn.1, tn.2)

/-- `task_switched()`: true immediately when the external stop event exists
and is set; otherwise reload the document, recompute `get_next()` and
report whether the fresh task differs from the bound one under
(command, next_run) equality. -/
def task_switched (c : Config) (stopEvent : Option Bool) (prio : List String)
    (now : Int) : Except CfgError (Bool × Config) :=
  if stopEvent = some true then .ok (true, c)
  else
    match load c with
    | .error e => .error e
    | .ok c2 => task_switched_fresh c c2 prio now

/-- `MultiSetWrapper.__enter__`: suspend auto-update, or record that this is
a nested entry into an already-suspended scope (`in_wrapper`). -/
def msEnter (c : Config) : Config × Bool :=
  if c.auto_update then ({ c with auto_update := false }, false)
  else (c, true)

/-- Sequencing of two fallible steps: run the first; on success feed its
result to the continuation, on error propagate the exception — the model
of straight-line Python statements under exception propagation. -/
def exceptStep {ε α β : Type} (x : Except ε α) (f : α → Except ε β) :
    Except ε β :=
  match x with
  | .error e => .error e
  | .ok a => f a

theorem exceptStep_ok {ε α β : Type} (a : α) (f : α → Except ε β) :
    exceptStep (Except.ok (ε := ε) a) f = f a := rfl

/-- `MultiSetWrapper.__exit__`: a nested wrapper does nothing; the outermost
wrapper runs `update()` and restores auto-update.  The exception arguments
of the Python method are ignored by its body, so the flush runs for normal
and exceptional exits alike. -/
def msExit (c : Config) (in_wrapper : Bool) : Except CfgError Config :=
  if in_wrapper then .ok c
  else exceptStep (update c) (fun c2 => .ok { c2 with auto_update := true })

/-- The writes performed by a scope body, applied through `__setattr__`. -/
def stageWrites (c : Config) (ws : List (String × Value)) :
    Except CfgError Config :=
  match ws with
  | [] => .ok c
  | kv :: rest =>
      match setattrC c kv.1 kv.2 with
      | .error e => .error e
      | .ok c2 => stageWrites c2 rest

/-- `with config.multi_set(): <ws writes>` — enter, run the body's writes,
exit. -/
def runScope (c : Config) (ws : List (String × Value)) :
    Except CfgError Config :=
  exceptStep (stageWrites (msEnter c).1 ws)
    (fun c2 => msExit c2 (msEnter c).2)

/-- Two nested `multi_set` scopes: outer writes `ws1`, an inner scope with
writes `ws2`, then outer writes `ws3`. -/
def runScopeNested (c : Config) (ws1 ws2 ws3 : List (String × Value)) :
    Except CfgError Config :=
  exceptStep (stageWrites (msEnter c).1 ws1) (fun c2 =>
    exceptStep (stageWrites (msEnter c2).1 ws2) (fun c3 =>
      exceptStep (msExit c3 (msEnter c2).2) (fun c4 =>
        exceptStep (stageWrites c4 ws3) (fun c5 =>
          msExit c5 (msEnter c).2))))

/-- A `multi_set` scope whose body performs the writes `ws` and then raises:
Python's `with` statement still calls `__exit__`, whose body ignores the
exception information, so the execution is enter, writes, exit — the same
state transition as a normal scope (the body's exception then propagates
to the caller, which does not change the configuration state). -/
def runScopeAfterRaise (c : Config) (ws : List (String × Value)) :
    Except CfgError Config :=
  runScope c ws

/-! ### Association-list and document lemmas -/

theorem alget_alset_self {κ α : Type} [DecidableEq κ] (l : List (κ × α))
    (k : κ) (v : α) : alget (alset l k v) k = some v := by
  induction l with
  | nil => simp [alset, alget]
  | cons kv rest ih =>
      obtain ⟨k0, v0⟩ := kv
      by_cases h : k0 = k
      · simp [alset, alget, h]
      · simp [alset, alget, h, ih]

theorem alget_alset_ne {κ α : Type} [DecidableEq κ] (l : List (κ × α))
    (k k2 : κ) (v : α) (h : k2 ≠ k) : alget (alset l k v) k2 = alget l k2 := by
  have h2 : k ≠ k2 := Ne.symm h
  induction l with
  | nil => simp [alset, alget, h2]
  | cons kv rest ih =>
      obtain ⟨k0, v0⟩ := kv
      by_cases h0 : k0 = k
      · subst h0
        simp [alset, alget, h2]
      · simp [alset, alget, h0, ih]

theorem mem_keys_alset {κ α : Type} [DecidableEq κ] (l : List (κ × α))
    (k a : κ) (v : α) :
    a ∈ (alset l k v).map Prod.fst ↔ a ∈ l.map Prod.fst ∨ a = k := by
  induction l with
  | nil => simp [alset]
  | cons kv rest ih =>
      obtain ⟨k0, v0⟩ := kv
      by_cases h : k0 = k
      · subst h
        simp [alset]
        tauto
      · simp [alset, h, ih]
        tauto

theorem nodup_keys_alset {κ α : Type} [DecidableEq κ] (l : List (κ × α))
    (k : κ) (v : α) (h : (l.map Prod.fst).Nodup) :
    ((alset l k v).map Prod.fst).Nodup := by
  induction l with
  | nil => simp [alset]
  | cons kv rest ih =>
      obtain ⟨k0, v0⟩ := kv
      rw [List.map_cons, List.nodup_cons] at h
      by_cases hk : k0 = k
      · subst hk
        simpa [alset] using h
      · have hrest := ih h.2
        have hmem : k0 ∉ (alset rest k v).map Prod.fst := by
          rw [mem_keys_alset]
          rintro (hin | rfl)
          · exact h.1 hin
          · exact hk rfl
        simp only [alset, if_neg hk, List.map_cons, List.nodup_cons]
        exact ⟨hmem, hrest⟩

theorem deep_get3P_deep_set3_self (d : ConfigData) (p : Path) (v : Value) :
    deep_get3P (deep_set3 d p v) p = some v := by
  obtain ⟨f, g, a⟩ := p
  simp [deep_get3P, deep_get3, deep_set3, deep_get2, alget_alset_self]

theorem deep_get3P_deep_set3_ne (d : ConfigData) (p q : Path) (v : Value)
    (h : q ≠ p) : deep_get3P (deep_set3 d p v) q = deep_get3P d q := by
  obtain ⟨f, g, a⟩ := p
  obtain ⟨f2, g2, a2⟩ := q
  by_cases hf : f2 = f
  · subst hf
    by_cases hg : g2 = g
    · subst hg
      have ha : a2 ≠ a := by
        intro hc
        exact h (by simp [hc])
      have ha2 : a ≠ a2 := Ne.symm ha
      cases hd : alget d f2 with
      | none =>
          simp [deep_get3P, deep_get3, deep_set3, deep_get2, hd,
            alget_alset_self, alget_alset_ne _ _ _ _ ha, ha2, alget]
      | some fd =>
          cases hgd : alget fd g2 with
          | none =>
              simp [deep_get3P, deep_get3, deep_set3, deep_get2, hd, hgd,
                alget_alset_self, alget_alset_ne _ _ _ _ ha, ha2, alget]
          | some gd =>
              simp [deep_get3P, deep_get3, deep_set3, deep_get2, hd, hgd,
                alget_alset_self, alget_alset_ne _ _ _ _ ha, ha2]
    · have hg2 : g ≠ g2 := Ne.symm hg
      cases hd : alget d f2 with
      | none =>
          simp [deep_get3P, deep_get3, deep_set3, deep_get2, hd,
            alget_alset_self, alget_alset_ne _ _ _ _ hg, hg2, alget]
      | some fd =>
          simp [deep_get3P, deep_get3, deep_set3, deep_get2, hd,
            alget_alset_self, alget_alset_ne _ _ _ _ hg, hg2]
  · simp [deep_get3P, deep_get3, deep_set3, deep_get2,
      alget_alset_ne _ _ _ _ hf]

theorem applyModified_nil (d : ConfigData) : applyModified d [] = d := rfl

theorem applyModified_cons (d : ConfigData) (pv : Path × Value)
    (m : List (Path × Value)) :
    applyModified d (pv :: m) = applyModified (deep_set3 d pv.1 pv.2) m := rfl

theorem deep_get3P_applyModified_notmem (d : ConfigData)
    (m : List (Path × Value)) (p : Path) (h : p ∉ m.map Prod.fst) :
    deep_get3P (applyModified d m) p = deep_get3P d p := by
  induction m generalizing d with
  | nil => rfl
  | cons pv rest ih =>
      rw [List.map_cons] at h
      have h1 : p ≠ pv.1 := fun hc => h (by simp [hc])
      have h2 : p ∉ rest.map Prod.fst := fun hc => h (List.mem_cons_of_mem _ hc)
      rw [applyModified_cons, ih _ h2, deep_get3P_deep_set3_ne d pv.1 p pv.2 h1]

theorem deep_get3P_applyModified_mem (d : ConfigData)
    (m : List (Path × Value)) (p : Path) (w : Value)
    (hnd : (m.map Prod.fst).Nodup) (h : alget m p = some w) :
    deep_get3P (applyModified d m) p = some w := by
  induction m generalizing d with
  | nil => simp [alget] at h
  | cons pv rest ih =>
      obtain ⟨q, u⟩ := pv
      rw [List.map_cons, List.nodup_cons] at hnd
      by_cases hq : q = p
      · subst hq
        have hw : u = w := by simpa [alget] using h
        subst hw
        rw [applyModified_cons,
          deep_get3P_applyModified_notmem _ _ _ (by simpa using hnd.1)]
        exact deep_get3P_deep_set3_self d _ u
      · simp only [alget, if_neg hq] at h
        rw [applyModified_cons]
        exact ih _ hnd.2 h

/-! ### Scheduling-pass lemmas -/

theorem partitionTasks_cons_disabled (g : Function) (gs : List Function)
    (now : Int) (h : g.enable = false) :
    partitionTasks (g :: gs) now = partitionTasks gs now := by
  simp [partitionTasks, h]

theorem partitionTasks_cons_pending (g : Function) (gs : List Function)
    (now : Int) (h1 : g.enable = true) (h2 : g.next_run < now) :
    partitionTasks (g :: gs) now =
      (g :: (partitionTasks gs now).1, (partitionTasks gs now).2) := by
  simp [partitionTasks, h1, h2]

theorem partitionTasks_cons_waiting (g : Function) (gs : List Function)
    (now : Int) (h1 : g.enable = true) (h2 : ¬g.next_run < now) :
    partitionTasks (g :: gs) now =
      ((partitionTasks gs now).1, g :: (partitionTasks gs now).2) := by
  simp [partitionTasks, h1, h2]

theorem mem_partitionTasks_fst (l : List Function) (now : Int) (f : Function) :
    f ∈ (partitionTasks l now).1 ↔
      f ∈ l ∧ f.enable = true ∧ f.next_run < now := by
  induction l with
  | nil => simp [partitionTasks]
  | cons g gs ih =>
      cases hge : g.enable with
      | false =>
          rw [partitionTasks_cons_disabled g gs now hge, ih]
          constructor
          · rintro ⟨hm, h1, h2⟩
            exact ⟨List.mem_cons_of_mem _ hm, h1, h2⟩
          · rintro ⟨hm, h1, h2⟩
            rcases List.mem_cons.mp hm with rfl | hm2
            · rw [hge] at h1
              exact Bool.noConfusion h1
            · exact ⟨hm2, h1, h2⟩
      | true =>
          by_cases hn : g.next_run < now
          · rw [partitionTasks_cons_pending g gs now hge hn]
            constructor
            · intro hmem
              rcases List.mem_cons.mp hmem with rfl | hm2
              · exact ⟨List.mem_cons_self _ _, hge, hn⟩
              · obtain ⟨hm, h1, h2⟩ := ih.mp hm2
                exact ⟨List.mem_cons_of_mem _ hm, h1, h2⟩
            · rintro ⟨hm, h1, h2⟩
              rcases List.mem_cons.mp hm with rfl | hm2
              · exact List.mem_cons_self _ _
              · exact List.mem_cons_of_mem _ (ih.mpr ⟨hm2, h1, h2⟩)
          · rw [partitionTasks_cons_waiting g gs now hge hn]
            rw [show ((partitionTasks gs now).1,
                g :: (partitionTasks gs now).2).1 =
                (partitionTasks gs now).1 from rfl, ih]
            constructor
            · rintro ⟨hm, h1, h2⟩
              exact ⟨List.mem_cons_of_mem _ hm, h1, h2⟩
            · rintro ⟨hm, h1, h2⟩
              rcases List.mem_cons.mp hm with rfl | hm2
              · exact absurd h2 hn
              · exact ⟨hm2, h1, h2⟩

theorem mem_partitionTasks_snd (l : List Function) (now : Int) (f : Function) :
    f ∈ (partitionTasks l now).2 ↔
      f ∈ l ∧ f.enable = true ∧ ¬f.next_run < now := by
  induction l with
  | nil => simp [partitionTasks]
  | cons g gs ih =>
      cases hge : g.enable with
      | false =>
          rw [partitionTasks_cons_disabled g gs now hge, ih]
          constructor
          · rintro ⟨hm, h1, h2⟩
            exact ⟨List.mem_cons_of_mem _ hm, h1, h2⟩
          · rintro ⟨hm, h1, h2⟩
            rcases List.mem_cons.mp hm with rfl | hm2
            · rw [hge] at h1
              exact Bool.noConfusion h1
            · exact ⟨hm2, h1, h2⟩
      | true =>
          by_cases hn : g.next_run < now
          · rw [partitionTasks_cons_pending g gs now hge hn]
            rw [show (g :: (partitionTasks gs now).1,
                (partitionTasks gs now).2).2 =
                (partitionTasks gs now).2 from rfl, ih]
            constructor
            · rintro ⟨hm, h1, h2⟩
              exact ⟨List.mem_cons_of_mem _ hm, h1, h2⟩
            · rintro ⟨hm, h1, h2⟩
              rcases List.mem_cons.mp hm with rfl | hm2
              · exact absurd hn h2
              · exact ⟨hm2, h1, h2⟩
          · rw [partitionTasks_cons_waiting g gs now hge hn]
            constructor
            · intro hmem
              rcases List.mem_cons.mp hmem with rfl | hm2
              · exact ⟨List.mem_cons_self _ _, hge, hn⟩
              · obtain ⟨hm, h1, h2⟩ := ih.mp hm2
                exact ⟨List.mem_cons_of_mem _ hm, h1, h2⟩
            · rintro ⟨hm, h1, h2⟩
              rcases List.mem_cons.mp hm with rfl | hm2
              · exact List.mem_cons_self _ _
              · exact List.mem_cons_of_mem _ (ih.mpr ⟨hm2, h1, h2⟩)

theorem prioIdx_le (prio : List String) (cmd : String) :
    prioIdx prio cmd ≤ prio.length := by
  induction prio with
  | nil => simp [prioIdx]
  | cons p ps ih =>
      by_cases h : p = cmd
      · simp [prioIdx, h]
      · simp only [prioIdx, if_neg h, List.length_cons]
        omega

theorem mem_priorityFilter (prio : List String) (l : List Function)
    (f : Function) :
    f ∈ priorityFilter prio l ↔ f ∈ l ∧ f.enable = true := by
  simp only [priorityFilter, List.mem_filter, List.mem_flatMap,
    List.mem_range]
  constructor
  · rintro ⟨⟨i, _, hf, _⟩, he⟩
    exact ⟨hf, he⟩
  · rintro ⟨hm, he⟩
    refine ⟨⟨prioIdx prio f.command,
      Nat.lt_succ_of_le (prioIdx_le prio f.command), hm, by simp⟩, he⟩

theorem mem_sortNR (l : List Function) (f : Function) :
    f ∈ sortNR l ↔ f ∈ l :=
  (List.perm_insertionSort nrLE l).mem_iff

theorem sortNR_sorted (l : List Function) : (sortNR l).Pairwise nrLE :=
  List.sorted_insertionSort nrLE l

theorem sortNR_head_min (l : List Function) (t : Function)
    (ts : List Function) (h : sortNR l = t :: ts) :
    ∀ g ∈ l, t.next_run ≤ g.next_run := by
  intro g hg
  rw [← mem_sortNR, h] at hg
  rcases List.mem_cons.mp hg with rfl | hg2
  · exact le_refl _
  · have hs := sortNR_sorted l
    rw [h, List.pairwise_cons] at hs
    exact hs.1 g hg2

/-- The pending queue recomputed by `get_next_task`, characterized by
membership: a task value is pending iff it arises from a document entry,
is enabled and its `next_run` lies strictly before the adjusted now. -/
theorem mem_pending_iff (c : Config) (prio : List String) (now : Int)
    (f : Function) :
    f ∈ (get_next_task c prio now).pending_task ↔
      (∃ e ∈ c.data, Function.ofData e.2 = f) ∧ f.enable = true ∧
        f.next_run < adjustedNow c now := by
  have hq : (get_next_task c prio now).pending_task = pendingOf c prio now := rfl
  rw [hq]
  unfold pendingOf
  by_cases hsplit : (partitionTasks (c.data.map fun e => Function.ofData e.2)
      (adjustedNow c now)).1.isEmpty
  · rw [if_pos hsplit]
    rw [List.isEmpty_iff] at hsplit
    rw [hsplit]
    simp only [List.not_mem_nil, false_iff]
    rintro ⟨⟨e, he, rfl⟩, h1, h2⟩
    have hmem : Function.ofData e.2 ∈ (partitionTasks
        (c.data.map fun e => Function.ofData e.2) (adjustedNow c now)).1 := by
      rw [mem_partitionTasks_fst]
      exact ⟨List.mem_map.mpr ⟨e, he, rfl⟩, h1, h2⟩
    rw [hsplit] at hmem
    simp at hmem
  · rw [if_neg hsplit, mem_priorityFilter, mem_partitionTasks_fst]
    simp only [List.mem_map]
    constructor
    · rintro ⟨⟨⟨e, he, rfl⟩, h1, h2⟩, _⟩
      exact ⟨⟨e, he, rfl⟩, h1, h2⟩
    · rintro ⟨⟨e, he, rfl⟩, h1, h2⟩
      exact ⟨⟨⟨e, he, rfl⟩, h1, h2⟩, h1⟩

/-- The waiting-queue counterpart of `mem_pending_iff`. -/
theorem mem_waiting_iff (c : Config) (prio : List String) (now : Int)
    (f : Function) :
    f ∈ (get_next_task c prio now).waiting_task ↔
      (∃ e ∈ c.data, Function.ofData e.2 = f) ∧ f.enable = true ∧
        ¬f.next_run < adjustedNow c now := by
  have hq : (get_next_task c prio now).waiting_task = waitingOf c now := rfl
  rw [hq]
  unfold waitingOf
  by_cases hsplit : (partitionTasks (c.data.map fun e => Function.ofData e.2)
      (adjustedNow c now)).2.isEmpty
  · rw [if_pos hsplit]
    rw [List.isEmpty_iff] at hsplit
    rw [hsplit]
    simp only [List.not_mem_nil, false_iff]
    rintro ⟨⟨e, he, rfl⟩, h1, h2⟩
    have hmem : Function.ofData e.2 ∈ (partitionTasks
        (c.data.map fun e => Function.ofData e.2) (adjustedNow c now)).2 := by
      rw [mem_partitionTasks_snd]
      exact ⟨List.mem_map.mpr ⟨e, he, rfl⟩, h1, h2⟩
    rw [hsplit] at hmem
    simp at hmem
  · rw [if_neg hsplit, mem_sortNR, mem_partitionTasks_snd]
    simp only [List.mem_map]

/-- The head of a non-empty waiting queue has the least `next_run`. -/
theorem waiting_head_min (c : Config) (prio : List String) (now : Int)
    (t : Function) (ts : List Function)
    (h : (get_next_task c prio now).waiting_task = t :: ts) :
    ∀ g ∈ (get_next_task c prio now).waiting_task, t.next_run ≤ g.next_run := by
  have hq : (get_next_task c prio now).waiting_task = waitingOf c now := rfl
  rw [hq] at h ⊢
  unfold waitingOf at h ⊢
  by_cases hsplit : (partitionTasks (c.data.map fun e => Function.ofData e.2)
      (adjustedNow c now)).2.isEmpty
  · rw [if_pos hsplit] at h
    rw [List.isEmpty_iff] at hsplit
    rw [hsplit] at h
    exact List.noConfusion h
  · rw [if_neg hsplit] at h ⊢
    intro g hg
    exact sortNR_head_min _ t ts h g ((mem_sortNR _ g).mp hg)

/-! ### Concrete states used by the witness instances
(the claim theorems themselves quantify over every state). -/

/-- A minimal configuration state over a given document. -/
def mkConfig (d : ConfigData) : Config :=
  { file := d, data := d, modified := [], bound := [], auto_update := true,
    overridden := [], attrs := [],
    task := { enable := true, command := "Alas", next_run := 0 },
    pending_task := [], waiting_task := [], is_hoarding_task := true,
    saves := 0 }

/-- A task section holding only the given Scheduler group. -/
def schedGroup (en : Bool) (cmd : String) (nr : Int) : FuncData :=
  [("Scheduler",
    [("Enable", Value.vBool en), ("Command", Value.vStr cmd),
     ("NextRun", Value.vTime nr)])]

/-- A fixed concrete "now" (microseconds since the Unix epoch). -/
def tNow : Int := 1700000000000000

/-- An `Alas` section configuring a hoarding duration of 2 minutes. -/
def hoardAlas : FuncData :=
  [("Optimization", [("TaskHoardingDuration", Value.vInt 2)])]

/-- A document with one enabled task `T` whose `next_run` is `tNow` minus
one minute (half the configured 2-minute hoarding duration). -/
def c2doc : ConfigData :=
  [("T", schedGroup true "T" (tNow - 60000000)), ("Alas", hoardAlas)]

/-! ### Claim theorems -/

/-- C1: for every configuration document and fixed current time,
`get_next_task` partitions exactly the enabled task entries between
`pending_task` and `waiting_task`: membership in each queue is equivalent
to arising from a document entry, being enabled, and `next_run` lying
strictly before (pending) or not before (waiting) the possibly
hoarding-adjusted now; a disabled task appears in neither queue, and every
enabled task entry appears in exactly one of the two. -/
theorem get_next_task_partitions_enabled (c : Config) (prio : List String)
    (now : Int) (f : Function) :
    (f ∈ (get_next_task c prio now).pending_task ↔
      (∃ e ∈ c.data, Function.ofData e.2 = f) ∧ f.enable = true ∧
        f.next_run < adjustedNow c now) ∧
    (f ∈ (get_next_task c prio now).waiting_task ↔
      (∃ e ∈ c.data, Function.ofData e.2 = f) ∧ f.enable = true ∧
        ¬f.next_run < adjustedNow c now) ∧
    (f.enable = false →
      f ∉ (get_next_task c prio now).pending_task ∧
      f ∉ (get_next_task c prio now).waiting_task) ∧
    (∀ e ∈ c.data, (Function.ofData e.2).enable = true →
      ((Function.ofData e.2 ∈ (get_next_task c prio now).pending_task ↔
         (Function.ofData e.2).next_run < adjustedNow c now) ∧
       (Function.ofData e.2 ∈ (get_next_task c prio now).waiting_task ↔
         ¬(Function.ofData e.2).next_run < adjustedNow c now))) := by
  refine ⟨mem_pending_iff c prio now f, mem_waiting_iff c prio now f, ?_, ?_⟩
  · intro hdis
    constructor
    · intro hmem
      obtain ⟨_, hen, _⟩ := (mem_pending_iff c prio now f).mp hmem
      rw [hdis] at hen
      exact Bool.noConfusion hen
    · intro hmem
      obtain ⟨_, hen, _⟩ := (mem_waiting_iff c prio now f).mp hmem
      rw [hdis] at hen
      exact Bool.noConfusion hen
  · intro e he hen
    constructor
    · rw [mem_pending_iff]
      constructor
      · rintro ⟨_, _, hlt⟩
        exact hlt
      · intro hlt
        exact ⟨⟨e, he, rfl⟩, hen, hlt⟩
    · rw [mem_waiting_iff]
      constructor
      · rintro ⟨_, _, hge⟩
        exact hge
      · intro hge
        exact ⟨⟨e, he, rfl⟩, hen, hge⟩

/-- Witness for C1 at a concrete disabled task: it lands in neither queue. -/
theorem get_next_task_partitions_enabled_witness :
    ({ enable := false, command := "X", next_run := 0 } : Function) ∉
        (get_next_task (mkConfig []) [] 0).pending_task ∧
      ({ enable := false, command := "X", next_run := 0 } : Function) ∉
        (get_next_task (mkConfig []) [] 0).waiting_task :=
  (get_next_task_partitions_enabled (mkConfig []) [] 0
    { enable := false, command := "X", next_run := 0 }).2.2.1 rfl

/-- C2 counterexample: with `is_hoarding=true` and a hoarding duration of
D = 2 minutes, the enabled task `T` with `next_run = now - D/2` is NOT in
`pending_task` (the claim says it is Pending); with `is_hoarding=false` it
is in `pending_task` (the claim says it would be Waiting).  The hoarding
adjustment `now -= hoarding` shrinks the pending window instead of
widening it. -/
theorem hoarding_claim_counterexample :
    Function.ofData (schedGroup true "T" (tNow - 60000000)) ∉
        (get_next_task (mkConfig c2doc) [] tNow).pending_task ∧
      Function.ofData (schedGroup true "T" (tNow - 60000000)) ∈
        (get_next_task (mkConfig c2doc) [] tNow).waiting_task ∧
      Function.ofData (schedGroup true "T" (tNow - 60000000)) ∈
        (get_next_task { mkConfig c2doc with is_hoarding_task := false }
          [] tNow).pending_task ∧
      Function.ofData (schedGroup true "T" (tNow - 60000000)) ∉
        (get_next_task { mkConfig c2doc with is_hoarding_task := false }
          [] tNow).waiting_task := by
  decide

/-- C2 (amended): with `is_hoarding=true` and a configured hoarding
duration of D minutes (D > 0), an enabled task whose `next_run` equals
`now - D/2` is classified as Waiting by the scheduling pass (and not as
Pending), while the same task under the same now would be classified as
Pending (and not Waiting) with `is_hoarding=false`. -/
theorem hoarding_half_window_waiting (c : Config) (prio : List String)
    (now D : Int) (hflag : c.is_hoarding_task = true)
    (hD : deep_get3 c.data "Alas" "Optimization" "TaskHoardingDuration" =
      some (Value.vInt D))
    (hDpos : 0 < D) (e : String × FuncData) (he : e ∈ c.data) (f : Function)
    (hf : Function.ofData e.2 = f) (hen : f.enable = true)
    (hnr : f.next_run = now - 30000000 * D) :
    f ∈ (get_next_task c prio now).waiting_task ∧
      f ∉ (get_next_task c prio now).pending_task ∧
      f ∈ (get_next_task { c with is_hoarding_task := false }
        prio now).pending_task ∧
      f ∉ (get_next_task { c with is_hoarding_task := false }
        prio now).waiting_task := by
  have hmax : max D 0 = D := max_eq_left hDpos.le
  have hhoard : hoardingOf c.data = 60000000 * D := by
    simp [hoardingOf, hD, Value.asInt, hmax]
  have hadj : adjustedNow c now = now - 60000000 * D := by
    simp [adjustedNow, hflag, hhoard]
  have hadj2 :
      adjustedNow { c with is_hoarding_task := false } now = now := by
    simp [adjustedNow]
  refine ⟨?_, ?_, ?_, ?_⟩
  · rw [mem_waiting_iff, hadj, hnr]
    exact ⟨⟨e, he, hf⟩, hen, by omega⟩
  · intro hmem
    obtain ⟨_, _, hlt⟩ := (mem_pending_iff c prio now f).mp hmem
    rw [hadj, hnr] at hlt
    omega
  · rw [mem_pending_iff, hadj2, hnr]
    exact ⟨⟨e, he, hf⟩, hen, by omega⟩
  · intro hmem
    obtain ⟨_, _, hge⟩ :=
      (mem_waiting_iff { c with is_hoarding_task := false } prio now f).mp hmem
    rw [hadj2, hnr] at hge
    omega

/-- Witness for the amended C2 at the concrete two-minute instance. -/
theorem hoarding_half_window_waiting_witness :
    Function.ofData (schedGroup true "T" (tNow - 60000000)) ∈
        (get_next_task (mkConfig c2doc) [] tNow).waiting_task ∧
      Function.ofData (schedGroup true "T" (tNow - 60000000)) ∉
        (get_next_task (mkConfig c2doc) [] tNow).pending_task ∧
      Function.ofData (schedGroup true "T" (tNow - 60000000)) ∈
        (get_next_task { mkConfig c2doc with is_hoarding_task := false }
          [] tNow).pending_task ∧
      Function.ofData (schedGroup true "T" (tNow - 60000000)) ∉
        (get_next_task { mkConfig c2doc with is_hoarding_task := false }
          [] tNow).waiting_task :=
  hoarding_half_window_waiting (mkConfig c2doc) [] tNow 2 rfl (by decide)
    (by decide) ("T", schedGroup true "T" (tNow - 60000000)) (by decide)
    (Function.ofData (schedGroup true "T" (tNow - 60000000))) rfl (by decide)
    (by decide)

/-- C3: when the recomputed pending queue is non-empty, `get_next` clears
the hoarding flag and returns its first task unchanged (its `next_run` is
not mutated) with the document untouched; when pending is empty and
waiting is non-empty, it sets the hoarding flag and returns a copy of the
earliest waiting task whose `next_run` is advanced by the hoarding
duration and floored to whole seconds, while the stored waiting queue
still holds the task with its original `next_run` and the document entry
is unchanged. -/
theorem get_next_frame (c : Config) (prio : List String) (now : Int) :
    (∀ t ts, (get_next_task c prio now).pending_task = t :: ts →
      ∃ c2, get_next c prio now = .ok (t, c2) ∧
        c2.is_hoarding_task = false ∧ c2.data = c.data ∧
        c2.pending_task = t :: ts ∧
        c2.waiting_task = (get_next_task c prio now).waiting_task) ∧
    ((get_next_task c prio now).pending_task = [] →
      ∀ t ts, (get_next_task c prio now).waiting_task = t :: ts →
      ∃ c2, get_next c prio now =
          .ok ({ t with
            next_run := truncSec (t.next_run + hoardingOf c.data) }, c2) ∧
        c2.is_hoarding_task = true ∧ c2.data = c.data ∧
        c2.waiting_task = t :: ts ∧
        (∀ g ∈ (get_next_task c prio now).waiting_task,
          t.next_run ≤ g.next_run)) := by
  constructor
  · intro t ts hp
    refine ⟨{ get_next_task c prio now with is_hoarding_task := false },
      ?_, rfl, rfl, hp, rfl⟩
    simp only [get_next]
    rw [hp]
  · intro hp t ts hw
    refine ⟨{ get_next_task c prio now with is_hoarding_task := true },
      ?_, rfl, rfl, hw, waiting_head_min c prio now t ts hw⟩
    simp only [get_next]
    rw [hp]
    have hw2 : ({ get_next_task c prio now with
        is_hoarding_task := true } : Config).waiting_task = t :: ts := hw
    rw [hw2]
    rfl

/-- Witness for C3: one concrete pending instance and one concrete
waiting instance. -/
theorem get_next_frame_witness :
    (∃ c2, get_next (mkConfig [("T", schedGroup true "T" 100)]) [] 200 =
        .ok (Function.ofData (schedGroup true "T" 100), c2) ∧
      c2.is_hoarding_task = false) ∧
    (∃ c2, get_next (mkConfig [("T", schedGroup true "T" 300)]) [] 200 =
        .ok ({ Function.ofData (schedGroup true "T" 300) with
          next_run := truncSec
            ((Function.ofData (schedGroup true "T" 300)).next_run +
              hoardingOf (mkConfig [("T", schedGroup true "T" 300)]).data) },
          c2) ∧
      c2.is_hoarding_task = true) := by
  constructor
  · obtain ⟨c2, h1, h2, _⟩ :=
      (get_next_frame (mkConfig [("T", schedGroup true "T" 100)]) [] 200).1
        (Function.ofData (schedGroup true "T" 100)) [] (by decide)
    exact ⟨c2, h1, h2⟩
  · obtain ⟨c2, h1, h2, _⟩ :=
      (get_next_frame (mkConfig [("T", schedGroup true "T" 300)]) [] 200).2
        (by decide) (Function.ofData (schedGroup true "T" 300)) [] (by decide)
    exact ⟨c2, h1, h2⟩

/-- The `fieldTypeOK` step fails exactly on a present non-datetime value. -/
theorem fieldTypeOK_eq_false_iff (fd : FuncData) (pr : String × String) :
    fieldTypeOK fd pr = false ↔
      ∃ v, deep_get2 fd pr.1 pr.2 = some v ∧ v.isTime = false := by
  cases h : deep_get2 fd pr.1 pr.2 with
  | none => simp [fieldTypeOK, h]
  | some v => simp [fieldTypeOK, h]

/-- `ConfigTypeChecker.check` passes exactly when every checked field of
every entry is in order. -/
theorem check_eq_true_iff (d : ConfigData) :
    ConfigTypeChecker.check d = true ↔
      ∀ e ∈ d, ∀ pr ∈ ConfigTypeChecker.checkers,
        fieldTypeOK e.2 pr = true := by
  simp [ConfigTypeChecker.check, List.all_eq_true]

/-- `ConfigTypeChecker.check` fails exactly when some entry has a checked
field present with a non-datetime value. -/
theorem check_eq_false_iff (d : ConfigData) :
    ConfigTypeChecker.check d = false ↔
      ∃ e ∈ d, ∃ pr ∈ ConfigTypeChecker.checkers,
        fieldTypeOK e.2 pr = false := by
  rw [← Bool.not_eq_true, check_eq_true_iff]
  push_neg
  simp [Bool.not_eq_true]

/-- A document whose task `Bad` stores `Scheduler.NextRun` as a string:
the type check must reject it. -/
def badDoc : ConfigData :=
  [("Bad", [("Scheduler",
    [("Enable", Value.vBool true),
     ("NextRun", Value.vStr "2020-01-01")])])]

/-- C4: `RequestHumanTakeover` is raised exactly in these situations —
`load()` raises it iff some entry of the persisted document holds one of
the checked timestamp fields (`ConfigTypeChecker.checkers`) with a present
non-datetime value (and returns the reloaded state otherwise), and
`get_next()` raises it iff the recomputed pending and waiting queues are
both empty, which happens iff no document entry is enabled.  In the
`Except` embedding, an error is the synchronously propagated result — no
internal retry is possible. -/
theorem request_human_takeover_cases (c : Config) (prio : List String)
    (now : Int) :
    (load c = .error .requestHumanTakeover ↔
      ∃ e ∈ c.file, ∃ pr ∈ ConfigTypeChecker.checkers,
        ∃ v, deep_get2 e.2 pr.1 pr.2 = some v ∧ v.isTime = false) ∧
    (¬(∃ e ∈ c.file, ∃ pr ∈ ConfigTypeChecker.checkers,
        ∃ v, deep_get2 e.2 pr.1 pr.2 = some v ∧ v.isTime = false) →
      load c = .ok { c with data := applyModified c.file c.modified }) ∧
    (get_next c prio now = .error .requestHumanTakeover ↔
      (get_next_task c prio now).pending_task = [] ∧
      (get_next_task c prio now).waiting_task = []) ∧
    ((get_next_task c prio now).pending_task = [] ∧
      (get_next_task c prio now).waiting_task = [] ↔
      ∀ e ∈ c.data, (Function.ofData e.2).enable = false) := by
  have hviol : (∃ e ∈ c.file, ∃ pr ∈ ConfigTypeChecker.checkers,
      ∃ v, deep_get2 e.2 pr.1 pr.2 = some v ∧ v.isTime = false) ↔
      ConfigTypeChecker.check c.file = false := by
    rw [check_eq_false_iff]
    constructor
    · rintro ⟨e, he, pr, hpr, v, hv, ht⟩
      exact ⟨e, he, pr, hpr, (fieldTypeOK_eq_false_iff e.2 pr).mpr ⟨v, hv, ht⟩⟩
    · rintro ⟨e, he, pr, hpr, hb⟩
      obtain ⟨v, hv, ht⟩ := (fieldTypeOK_eq_false_iff e.2 pr).mp hb
      exact ⟨e, he, pr, hpr, v, hv, ht⟩
  refine ⟨?_, ?_, ?_, ?_⟩
  · rw [hviol]
    unfold load
    by_cases h : ConfigTypeChecker.check c.file
    · simp [h]
    · simp only [Bool.not_eq_true] at h
      simp [h]
  · intro hno
    rw [hviol, Bool.not_eq_false] at hno
    unfold load
    rw [if_pos hno]
  · cases hpq : (get_next_task c prio now).pending_task with
    | cons t ts =>
        simp only [get_next]
        rw [hpq]
        simp
    | nil =>
        cases hwq : (get_next_task c prio now).waiting_task with
        | cons t ts =>
            simp only [get_next]
            rw [hpq]
            have hw2 : ({ get_next_task c prio now with
                is_hoarding_task := true } : Config).waiting_task =
                t :: ts := hwq
            rw [hw2]
            simp [hwq]
        | nil =>
            simp only [get_next]
            rw [hpq]
            have hw2 : ({ get_next_task c prio now with
                is_hoarding_task := true } : Config).waiting_task = [] := hwq
            rw [hw2]
            simp [hwq]
  · constructor
    · rintro ⟨hp, hw⟩ e he
      by_contra hen
      rw [Bool.not_eq_false] at hen
      by_cases hlt : (Function.ofData e.2).next_run < adjustedNow c now
      · have hmem := (mem_pending_iff c prio now _).mpr ⟨⟨e, he, rfl⟩, hen, hlt⟩
        rw [hp] at hmem
        exact (List.not_mem_nil _) hmem
      · have hmem := (mem_waiting_iff c prio now _).mpr ⟨⟨e, he, rfl⟩, hen, hlt⟩
        rw [hw] at hmem
        exact (List.not_mem_nil _) hmem
    · intro hall
      constructor
      · rw [List.eq_nil_iff_forall_not_mem]
        intro f hf
        obtain ⟨⟨e, he, hfe⟩, hen, _⟩ := (mem_pending_iff c prio now f).mp hf
        have hdis := hall e he
        rw [hfe, hen] at hdis
        exact Bool.noConfusion hdis
      · rw [List.eq_nil_iff_forall_not_mem]
        intro f hf
        obtain ⟨⟨e, he, hfe⟩, hen, _⟩ := (mem_waiting_iff c prio now f).mp hf
        have hdis := hall e he
        rw [hfe, hen] at hdis
        exact Bool.noConfusion hdis

/-- Witness for C4: a malformed persisted timestamp makes `load` fail, and
an all-disabled document makes `get_next` fail. -/
theorem request_human_takeover_cases_witness :
    load (mkConfig badDoc) = .error .requestHumanTakeover ∧
      get_next (mkConfig []) [] 0 = .error .requestHumanTakeover :=
  ⟨(request_human_takeover_cases (mkConfig badDoc) [] 0).1.mpr
      ⟨("Bad", [("Scheduler",
          [("Enable", Value.vBool true),
           ("NextRun", Value.vStr "2020-01-01")])]),
        by decide, ("Scheduler", "NextRun"), by decide,
        Value.vStr "2020-01-01", by decide, by decide⟩,
    (request_human_takeover_cases (mkConfig []) [] 0).2.2.1.mpr
      ⟨by decide, by decide⟩⟩

/-- `update` can only fail with `RequestHumanTakeover` (from `load`). -/
theorem update_ne_scriptError (c : Config) (msg : String) :
    update c ≠ .error (.scriptError msg) := by
  unfold update load
  by_cases h : ConfigTypeChecker.check c.file
  · rw [if_pos h]
    intro hc
    exact Except.noConfusion hc
  · rw [if_neg h]
    intro hc
    exact CfgError.noConfusion (Except.error.inj hc)

/-- `__setattr__` can only fail with `RequestHumanTakeover`. -/
theorem setattrC_ne_scriptError (c : Config) (k : String) (v : Value)
    (msg : String) : setattrC c k v ≠ .error (.scriptError msg) := by
  unfold setattrC
  cases hb : alget c.bound k with
  | some p =>
      by_cases ha : c.auto_update
      · simpa [ha] using
          update_ne_scriptError { c with modified := alset c.modified p v } msg
      · simp [ha]
  | none => simp

/-- The candidate list of `task_delay` is empty iff every delay source is
`None`. -/
theorem delayRuns_isEmpty_iff (c : Config) (now : Int) (success : Option Bool)
    (server_update target : Option (List Int)) (minute : Option Int) :
    (delayRuns c now success server_update target minute).isEmpty = true ↔
      success = none ∧ server_update = none ∧ target = none ∧
        minute = none := by
  cases success <;> cases server_update <;> cases target <;> cases minute <;>
    simp [delayRuns]

/-- C5: `task_delay` raises `ScriptError` (the spec's `ConfigError`) iff
all four delay sources are `None`; otherwise, on a state whose writes are
staged (auto-update off) and where `Scheduler_NextRun` is bound to a path,
it stages that path to the minimum of the candidate timestamps contributed
by the non-null sources, floored to whole seconds. -/
theorem task_delay_min_or_error (c : Config) (now : Int)
    (success : Option Bool) (server_update target : Option (List Int))
    (minute : Option Int) :
    (task_delay c now success server_update target minute =
        .error (.scriptError delayErrMsg) ↔
      success = none ∧ server_update = none ∧ target = none ∧
        minute = none) ∧
    (∀ p, c.auto_update = false →
      alget c.bound "Scheduler_NextRun" = some p →
      ¬(success = none ∧ server_update = none ∧ target = none ∧
        minute = none) →
      ∃ c2, task_delay c now success server_update target minute = .ok c2 ∧
        alget c2.modified p = some (.vTime (truncSec
          (minList (delayRuns c now success server_update target minute)))) ∧
        c2.data = c.data ∧ c2.file = c.file) := by
  constructor
  · by_cases h : (delayRuns c now success server_update target minute).isEmpty
    · rw [← delayRuns_isEmpty_iff c now success server_update target minute]
      unfold task_delay
      rw [if_pos h]
      simp [h]
    · unfold task_delay
      rw [if_neg h]
      constructor
      · intro hc
        exact absurd hc (setattrC_ne_scriptError c _ _ _)
      · intro hall
        rw [← delayRuns_isEmpty_iff c now success server_update target
          minute] at hall
        exact absurd hall h
  · intro p hauto hbound hsome
    have h : ¬(delayRuns c now success server_update target minute).isEmpty
        = true := by
      intro hc
      exact hsome ((delayRuns_isEmpty_iff c now success server_update target
        minute).mp hc)
    unfold task_delay
    rw [if_neg h]
    unfold setattrC
    rw [hbound, hauto]
    set w := Value.vTime (truncSec (minList
      (delayRuns c now success server_update target minute))) with hw
    exact ⟨{ c with modified := alset c.modified p w }, by simp [hauto],
      alget_alset_self _ _ _, rfl, rfl⟩

/-- The concrete configuration state of the C5 witness: auto-update off,
`Scheduler_NextRun` bound, success interval of 10 minutes. -/
def c5cfg : Config :=
  { mkConfig [] with
    auto_update := false
    bound := [("Scheduler_NextRun", ("Alas", "Scheduler", "NextRun"))]
    attrs := [("Scheduler_SuccessInterval", Value.vInt 10)] }

/-- Witness for C5: with a 10-minute success interval, `delay(success=true)`
stages `now + 10 min` truncated to the whole second; with no argument the
call errors. -/
theorem task_delay_min_or_error_witness :
    (∃ c2, task_delay c5cfg (tNow + 500000) (some true) none none none =
        .ok c2 ∧
      alget c2.modified (("Alas", "Scheduler", "NextRun") : Path) =
        some (.vTime (tNow + 600000000))) ∧
    task_delay (mkConfig []) tNow none none none none =
      .error (.scriptError delayErrMsg) := by
  constructor
  · obtain ⟨c2, h1, h2, _⟩ :=
      (task_delay_min_or_error c5cfg (tNow + 500000) (some true)
        none none none).2
        ("Alas", "Scheduler", "NextRun") rfl (by decide) (by decide)
    refine ⟨c2, h1, ?_⟩
    rw [h2]
    decide
  · exact (task_delay_min_or_error (mkConfig []) tNow none none none
      none).1.mpr ⟨rfl, rfl, rfl, rfl⟩

/-- A document where the task `T` and the shared `General` section both
define the leaf field `G.A`, with different values. -/
def c6doc : ConfigData :=
  [("T", [("G", [("A", Value.vInt 1)])]),
   ("General", [("G", [("A", Value.vInt 2)])])]

/-- C6: `bind('T')` iterates the Python set `{'T', 'General', 'Alas'}`,
whose string iteration order is hash-randomized, so the task's own section
is NOT guaranteed to iterate first.  For the valid set enumeration
(General, T, Alas), the leaf `G.A` — present in both the task's own
section and the shared `General` section — binds to `General.G.A`, not to
the task's own path, contradicting the claim; only for a task-first
enumeration such as (T, General, Alas) does the task's own section win. -/
theorem bind_set_order_dependent :
    deep_get2 [("G", [("A", Value.vInt 1)])] "G" "A" = some (Value.vInt 1) ∧
      deep_get2 [("G", [("A", Value.vInt 2)])] "G" "A" =
        some (Value.vInt 2) ∧
      alget (bind (mkConfig c6doc) ["General", "T", "Alas"]).bound "G_A" =
        some (("General", "G", "A") : Path) ∧
      alget (bind (mkConfig c6doc) ["T", "General", "Alas"]).bound "G_A" =
        some (("T", "G", "A") : Path) ∧
      (("General", "G", "A") : Path) ≠ (("T", "G", "A") : Path) := by
  decide

/-- C7: `save()` followed by `load()` reproduces the document obtained by
applying every staged entry of the modified-set onto the in-memory
document — the logical state — so every bound parameter resolves to the
same value as immediately before the save; the modified-set is cleared by
the successful save. -/
theorem save_load_roundtrip (c : Config) (hm : c.modified ≠ [])
    (hc : ConfigTypeChecker.check (applyModified c.data c.modified) = true) :
    (save c).modified = [] ∧
      (save c).data = applyModified c.data c.modified ∧
      (save c).file = applyModified c.data c.modified ∧
      ∃ c2, load (save c) = .ok c2 ∧
        c2.data = applyModified c.data c.modified ∧
        ∀ kv ∈ c.bound, deep_get3P c2.data kv.2 =
          deep_get3P (applyModified c.data c.modified) kv.2 := by
  have hne : c.modified.isEmpty = false := by
    rw [← Bool.not_eq_true]
    intro h
    exact hm (List.isEmpty_iff.mp h)
  have hsave : save c = { c with
      saves := c.saves + 1, data := applyModified c.data c.modified,
      modified := [], file := applyModified c.data c.modified } := by
    unfold save
    rw [hne]
    rfl
  refine ⟨by rw [hsave], by rw [hsave], by rw [hsave], ?_⟩
  refine ⟨{ save c with
    data := applyModified (save c).file (save c).modified }, ?_, ?_, ?_⟩
  · unfold load
    rw [if_pos (by rw [hsave]; exact hc)]
  · rw [hsave]
    rfl
  · intro kv _
    rw [hsave]
    rfl

/-- Witness for C7 with one staged write. -/
theorem save_load_roundtrip_witness :
    ∃ c2, load (save { mkConfig [] with
        modified := [((("T", "Scheduler", "NextRun") : Path),
          Value.vTime 5)] }) = .ok c2 ∧
      c2.data = applyModified (mkConfig []).data
        [((("T", "Scheduler", "NextRun") : Path), Value.vTime 5)] := by
  obtain ⟨-, -, -, c2, h1, h2, -⟩ :=
    save_load_roundtrip { mkConfig [] with
      modified := [((("T", "Scheduler", "NextRun") : Path), Value.vTime 5)] }
      (by decide) (by decide)
  exact ⟨c2, h1, h2⟩

/-- C8: `task_switched()` returns true unconditionally when the external
stop event is set, regardless of queue contents; otherwise it reloads the
document, recomputes `get_next`, and — when those succeed — returns false
iff the freshly computed task equals the currently bound task under
(command, next_run) equality, true otherwise. -/
theorem task_switched_spec (c : Config) (stopEvent : Option Bool)
    (prio : List String) (now : Int) :
    (stopEvent = some true →
      task_switched c stopEvent prio now = .ok (true, c)) ∧
    (stopEvent ≠ some true → ∀ c2, load c = .ok c2 →
      ∀ t c3, get_next c2 prio now = .ok (t, c3) →
        task_switched c stopEvent prio now = .ok (!funcEq c.task t, c3) ∧
        (task_switched c stopEvent prio now = .ok (false, c3) ↔
          funcEq c.task t = true)) := by
  constructor
  · intro h
    unfold task_switched
    rw [if_pos h]
  · intro h c2 hl t c3 hg
    have heq : task_switched c stopEvent prio now =
        .ok (!funcEq c.task t, c3) := by
      unfold task_switched
      rw [if_neg h, hl]
      show task_switched_fresh c c2 prio now = .ok (!funcEq c.task t, c3)
      unfold task_switched_fresh
      rw [hg]
    refine ⟨heq, ?_⟩
    rw [heq]
    cases hfe : funcEq c.task t with
    | true => simp
    | false => simp

/-- The concrete document of the C8 witness: one enabled task `T`, due. -/
def c8doc : ConfigData := [("T", schedGroup true "T" 100)]

/-- The concrete configuration state of the C8 witness: bound to task `T`
at the same (command, next_run) the scheduler will recompute. -/
def c8cfg : Config :=
  { mkConfig c8doc with
    task := { enable := true, command := "T", next_run := 100 }
    is_hoarding_task := false }

/-- Witness for C8: with the stop event set the call reports a switch
without looking at the queues; with the same bound task recomputed it
reports no switch. -/
theorem task_switched_spec_witness :
    task_switched c8cfg (some true) [] 200 = .ok (true, c8cfg) ∧
      task_switched c8cfg none [] 200 =
        .ok (false, { get_next_task c8cfg [] 200 with
          is_hoarding_task := false }) := by
  constructor
  · exact (task_switched_spec c8cfg (some true) [] 200).1 rfl
  · have h := ((task_switched_spec c8cfg none [] 200).2 (by decide)
      c8cfg (by decide)
      { enable := true, command := "T", next_run := 100 }
      { get_next_task c8cfg [] 200 with is_hoarding_task := false }
      (by decide)).1
    rw [h]
    decide

/-! ### Batched-write scope lemmas -/

/-- With auto-update off, `__setattr__` stages or sets in place: no load,
no bind, no save. -/
theorem setattrC_noupdate (c : Config) (k : String) (v : Value)
    (h : c.auto_update = false) :
    ∃ c2, setattrC c k v = .ok c2 ∧ c2.auto_update = false ∧
      c2.saves = c.saves ∧ c2.file = c.file ∧ c2.task = c.task ∧
      ((c.modified.map Prod.fst).Nodup →
        (c2.modified.map Prod.fst).Nodup) := by
  unfold setattrC
  cases hb : alget c.bound k with
  | some p =>
      rw [h]
      refine ⟨{ c with modified := alset c.modified p v }, by simp [h],
        h, rfl, rfl, rfl, ?_⟩
      intro hnd
      exact nodup_keys_alset _ _ _ hnd
  | none =>
      exact ⟨{ c with attrs := alset c.attrs k v }, rfl, h, rfl, rfl, rfl,
        fun hnd => hnd⟩

/-- With auto-update off, a whole list of writes stages without a save. -/
theorem stageWrites_noupdate (c : Config) (ws : List (String × Value))
    (h : c.auto_update = false) :
    ∃ c2, stageWrites c ws = .ok c2 ∧ c2.auto_update = false ∧
      c2.saves = c.saves ∧ c2.file = c.file ∧ c2.task = c.task ∧
      ((c.modified.map Prod.fst).Nodup →
        (c2.modified.map Prod.fst).Nodup) := by
  induction ws generalizing c with
  | nil => exact ⟨c, rfl, h, rfl, rfl, rfl, fun hnd => hnd⟩
  | cons kv rest ih =>
      obtain ⟨c2, hc2, ha, hs, hf, ht, hnd⟩ :=
        setattrC_noupdate c kv.1 kv.2 h
      obtain ⟨c3, hc3, ha3, hs3, hf3, ht3, hnd3⟩ := ih c2 ha
      refine ⟨c3, ?_, ha3, by rw [hs3, hs], by rw [hf3, hf],
        by rw [ht3, ht], fun h0 => hnd3 (hnd h0)⟩
      unfold stageWrites
      rw [hc2]
      exact hc3

/-- `save` increments the invocation counter by exactly one. -/
theorem save_saves (c : Config) : (save c).saves = c.saves + 1 := by
  unfold save
  by_cases h : c.modified.isEmpty <;> simp [h]

/-- `save` leaves the auto-update flag alone. -/
theorem save_auto (c : Config) :
    (save c).auto_update = c.auto_update := by
  unfold save
  by_cases h : c.modified.isEmpty <;> simp [h]

/-- `bind` only rewrites `bound` and `attrs`. -/
theorem bind_saves (c : Config) (o : List String) :
    (bind c o).saves = c.saves := rfl

theorem bind_auto (c : Config) (o : List String) :
    (bind c o).auto_update = c.auto_update := rfl

theorem bind_modified (c : Config) (o : List String) :
    (bind c o).modified = c.modified := rfl

theorem bind_data (c : Config) (o : List String) :
    (bind c o).data = c.data := rfl

/-- `update()` on a well-typed file is load, rebind, save. -/
theorem update_eq (c : Config)
    (h : ConfigTypeChecker.check c.file = true) :
    update c = .ok (save (bind
      { c with data := applyModified c.file c.modified }
      (defaultBindOrder c.task.command))) := by
  unfold update load
  rw [if_pos h]

/-- `save` on an empty modified-set leaves it empty. -/
theorem save_modified_of_nil (c : Config) (h : c.modified = []) :
    (save c).modified = [] := by
  unfold save
  rw [h]
  simp

/-- `save` on a non-empty modified-set clears it and writes the flushed
document to the file. -/
theorem save_flush (c : Config) (h : c.modified ≠ []) :
    (save c).modified = [] ∧
      (save c).file = applyModified c.data c.modified := by
  have hne : c.modified.isEmpty = false := by
    rw [← Bool.not_eq_true]
    intro hc
    exact h (List.isEmpty_iff.mp hc)
  unfold save
  rw [hne]
  exact ⟨rfl, rfl⟩

/-- `update()` on a well-typed file performs exactly one save. -/
theorem update_one_save (c : Config)
    (h : ConfigTypeChecker.check c.file = true) :
    ∃ c2, update c = .ok c2 ∧ c2.saves = c.saves + 1 ∧
      c2.auto_update = c.auto_update := by
  rw [update_eq c h]
  refine ⟨_, rfl, ?_, ?_⟩
  · rw [save_saves, bind_saves]
  · rw [save_auto, bind_auto]

/-- `update()` on a well-typed file flushes: the modified-set is cleared
and every staged entry is written into the persisted file. -/
theorem update_flush (c : Config)
    (h : ConfigTypeChecker.check c.file = true)
    (hnd : (c.modified.map Prod.fst).Nodup) :
    ∃ c2, update c = .ok c2 ∧ c2.saves = c.saves + 1 ∧
      c2.auto_update = c.auto_update ∧ c2.modified = [] ∧
      ∀ p w, alget c.modified p = some w →
        deep_get3P c2.file p = some w := by
  rw [update_eq c h]
  refine ⟨_, rfl, ?_, ?_, ?_, ?_⟩
  · rw [save_saves, bind_saves]
  · rw [save_auto, bind_auto]
  · by_cases hm : c.modified = []
    · apply save_modified_of_nil
      rw [bind_modified]
      exact hm
    · refine (save_flush _ ?_).1
      rw [bind_modified]
      exact hm
  · intro p w hw
    by_cases hm : c.modified = []
    · rw [hm] at hw
      exact absurd hw (by simp [alget])
    · have hne : (bind { c with data := applyModified c.file c.modified }
          (defaultBindOrder c.task.command)).modified ≠ [] := by
        rw [bind_modified]
        exact hm
      rw [(save_flush _ hne).2, bind_modified]
      exact deep_get3P_applyModified_mem _ _ _ _ hnd hw

/-- C9: a batched-write scope with at least the listed writes performs no
save while the writes are staged and exactly one save at scope exit; an
inner nested scope's exit performs nothing, and the whole nested
composition still performs exactly one save, at the outermost exit. -/
theorem multi_set_single_save (c : Config)
    (ws ws1 ws2 ws3 : List (String × Value))
    (h1 : c.auto_update = true)
    (h2 : ConfigTypeChecker.check c.file = true) :
    (∃ cmid, stageWrites { c with auto_update := false } ws = .ok cmid ∧
      cmid.saves = c.saves ∧
      ∃ c2, runScope c ws = .ok c2 ∧ c2.saves = c.saves + 1) ∧
    (∀ c0, msExit c0 true = .ok c0) ∧
    (∃ c3, runScopeNested c ws1 ws2 ws3 = .ok c3 ∧
      c3.saves = c.saves + 1) := by
  have hEnter : msEnter c = ({ c with auto_update := false }, false) := by
    unfold msEnter
    rw [if_pos h1]
  have hExitTrue : ∀ c0, msExit c0 true = .ok c0 := by
    intro c0
    unfold msExit
    rw [if_pos rfl]
  have hExitFalse : ∀ c0 c2, update c0 = .ok c2 →
      msExit c0 false = .ok { c2 with auto_update := true } := by
    intro c0 c2 hup
    unfold msExit
    rw [if_neg (fun hc => Bool.noConfusion hc), hup]
    rfl
  refine ⟨?_, hExitTrue, ?_⟩
  · obtain ⟨cmid, hmid, hau, hsv, hfl, -, -⟩ :=
      stageWrites_noupdate { c with auto_update := false } ws rfl
    refine ⟨cmid, hmid, hsv, ?_⟩
    obtain ⟨c2, hup, hsv2, -⟩ := update_one_save cmid (by rw [hfl]; exact h2)
    refine ⟨{ c2 with auto_update := true }, ?_, by rw [hsv2, hsv]⟩
    simp only [runScope, hEnter, hmid, exceptStep_ok]
    exact hExitFalse cmid c2 hup
  · obtain ⟨cA, hA, hauA, hsvA, hflA, -, -⟩ :=
      stageWrites_noupdate { c with auto_update := false } ws1 rfl
    have hEnter2 : msEnter cA = (cA, true) := by
      unfold msEnter
      rw [hauA]
      simp
    obtain ⟨cB, hB, hauB, hsvB, hflB, -, -⟩ := stageWrites_noupdate cA ws2 hauA
    obtain ⟨cC, hC, hauC, hsvC, hflC, -, -⟩ := stageWrites_noupdate cB ws3 hauB
    obtain ⟨cD, hD, hsvD, -⟩ := update_one_save cC
      (by rw [hflC, hflB, hflA]; exact h2)
    refine ⟨{ cD with auto_update := true }, ?_, ?_⟩
    · simp only [runScopeNested, hEnter, hA, exceptStep_ok, hEnter2, hB,
        hExitTrue, hC]
      exact hExitFalse cC cD hD
    · rw [hsvD, hsvC, hsvB, hsvA]

/-- C10: when an exception propagates out of the body of a batched-write
scope, the outermost exit still performs the flush (load, rebind, save):
every modified-set entry staged before the exception is persisted into the
file rather than rolled back — the scope is not atomic with respect to
errors raised inside it. -/
theorem multi_set_flush_on_exception (c : Config)
    (ws : List (String × Value)) (h1 : c.auto_update = true)
    (h2 : ConfigTypeChecker.check c.file = true) (h3 : c.modified = []) :
    ∃ cmid c2,
      stageWrites { c with auto_update := false } ws = .ok cmid ∧
      runScopeAfterRaise c ws = .ok c2 ∧
      c2.saves = c.saves + 1 ∧ c2.modified = [] ∧
      ∀ p w, alget cmid.modified p = some w →
        deep_get3P c2.file p = some w := by
  have hEnter : msEnter c = ({ c with auto_update := false }, false) := by
    unfold msEnter
    rw [if_pos h1]
  obtain ⟨cmid, hmid, hau, hsv, hfl, -, hnd⟩ :=
    stageWrites_noupdate { c with auto_update := false } ws rfl
  have hndm : (cmid.modified.map Prod.fst).Nodup := by
    apply hnd
    show ((c.modified).map Prod.fst).Nodup
    rw [h3]
    exact List.nodup_nil
  obtain ⟨c2, hup, hsv2, -, hm2, hpersist⟩ :=
    update_flush cmid (by rw [hfl]; exact h2) hndm
  refine ⟨cmid, { c2 with auto_update := true }, hmid, ?_, ?_, hm2, ?_⟩
  · simp only [runScopeAfterRaise, runScope, hEnter, hmid, exceptStep_ok]
    unfold msExit
    rw [if_neg (fun hc => Bool.noConfusion hc), hup]
    rfl
  · show c2.saves = c.saves + 1
    rw [hsv2, hsv]
  · intro p w hw
    exact hpersist p w hw

/-- The concrete configuration state of the C9/C10 witnesses: a clean
state whose `Foo_Bar` parameter is bound to the path `T.Foo.Bar`. -/
def c9cfg : Config :=
  { mkConfig [] with bound := [("Foo_Bar", ("T", "Foo", "Bar"))] }

/-- Witness for C9: two writes in one scope produce one save; a nested
scope still produces exactly one save. -/
theorem multi_set_single_save_witness :
    (∃ c2, runScope c9cfg
        [("Foo_Bar", Value.vInt 1), ("Foo_Baz", Value.vInt 2)] = .ok c2 ∧
      c2.saves = c9cfg.saves + 1) ∧
    (∃ c3, runScopeNested c9cfg [("Foo_Bar", Value.vInt 1)]
        [("Foo_Bar", Value.vInt 2)] [] = .ok c3 ∧
      c3.saves = c9cfg.saves + 1) := by
  obtain ⟨⟨cmid, -, -, c2, hr, hs⟩, -, c3, hr3, hs3⟩ :=
    multi_set_single_save c9cfg
      [("Foo_Bar", Value.vInt 1), ("Foo_Baz", Value.vInt 2)]
      [("Foo_Bar", Value.vInt 1)] [("Foo_Bar", Value.vInt 2)] [] rfl
      (by decide)
  exact ⟨⟨c2, hr, hs⟩, c3, hr3, hs3⟩

/-- The staged state reached by the C10 witness's body before it raises. -/
def c10mid : Config :=
  { c9cfg with
    auto_update := false
    modified := [((("T", "Foo", "Bar") : Path), Value.vInt 7)] }

/-- Witness for C10: the single write staged before the exception is
persisted to the file by the exit flush. -/
theorem multi_set_flush_on_exception_witness :
    ∃ c2, runScopeAfterRaise c9cfg [("Foo_Bar", Value.vInt 7)] = .ok c2 ∧
      c2.saves = c9cfg.saves + 1 ∧ c2.modified = [] ∧
      deep_get3P c2.file (("T", "Foo", "Bar") : Path) =
        some (Value.vInt 7) := by
  obtain ⟨cmid, c2, hmid, hrun, hsv, hm, hp⟩ :=
    multi_set_flush_on_exception c9cfg [("Foo_Bar", Value.vInt 7)] rfl
      (by decide) rfl
  have hconc : stageWrites { c9cfg with auto_update := false }
      [("Foo_Bar", Value.vInt 7)] = .ok c10mid := by decide
  rw [hmid] at hconc
  have hcm : cmid = c10mid := Except.ok.inj hconc
  rw [hcm] at hp
  exact ⟨c2, hrun, hsv, hm, hp _ _ (by decide)⟩

end Alas
